import Mathlib

/-!
Verification development for the `apollo-link-contentful` source: a shallow
embedding of the query-AST analyzer, REST-parameter translator and request
orchestration logic, with theorems checking the specification's claims.

JavaScript objects are modelled as association lists with last-write-wins
lookup (`jget`): `obj[k] = v` appends a pair, object spread is list append,
`omit` is a filter.  JavaScript strings are Lean `String`s; the helpers
below mirror `String.prototype.replace` (first occurrence only),
`includes`, `startsWith` and `endsWith` on the underlying character lists
so that all definitions evaluate by kernel reduction.
-/

/-- Runtime JavaScript values appearing in query variables and parameters. -/
inductive Value where
  | vNull
  | vBool (b : Bool)
  | vNum (n : Int)
  | vStr (s : String)
  | vArr (xs : List Value)

/-- JavaScript truthiness of a `Value`. -/
def truthy : Value → Bool
  | Value.vNull => false
  | Value.vBool b => b
  | Value.vNum n => n != 0
  | Value.vStr s => s != ""
  | Value.vArr _ => true

mutual

/-- String conversion used by `Array.prototype.join`: `null`/`undefined`
become the empty string, booleans print as `true`/`false`, arrays are
joined with commas. -/
def toJoinString : Value → String
  | Value.vNull => ""
  | Value.vBool b => if b then "true" else "false"
  | Value.vNum n => toString n
  | Value.vStr s => s
  | Value.vArr xs => joinValues xs

/-- Comma as in `Array.prototype.join` between converted elements. -/
def joinValues : List Value → String
  | [] => ""
  | [x] => toJoinString x
  | x :: y :: rest => toJoinString x ++ "," ++ joinValues (y :: rest)

end

/-- Last value produced by `g` along a list; models the result of repeated
JavaScript property assignment, where the final write wins. -/
def lastSome {α β : Type} (g : α → Option β) (l : List α) : Option β :=
  l.foldl (fun acc x => match g x with | some v => some v | none => acc) none

/-- Left-biased choice on `Option`, written as a total function so that
statements avoid thunks. -/
def orO {β : Type} (a b : Option β) : Option β :=
  match a with
  | some v => some v
  | none => b

/-- JavaScript property lookup on an association list: the last binding of
the key wins, mirroring repeated assignment / object spread. -/
def jget {β : Type} (o : List (String × β)) (k : String) : Option β :=
  lastSome (fun p => if p.1 == k then some p.2 else none) o

/-- A JavaScript object holding runtime values. -/
abbrev Obj := List (String × Value)

/-- Keys of an object in first-assignment order without duplicates,
modelling `Object.keys`. -/
def objKeysAux {β : Type} : List String → List (String × β) → List String
  | _, [] => []
  | seen, p :: rest =>
      if p.1 ∈ seen then objKeysAux seen rest
      else p.1 :: objKeysAux (p.1 :: seen) rest

/-- `Object.keys` for the association-list object model. -/
def objKeys {β : Type} (o : List (String × β)) : List String :=
  objKeysAux [] o

/-- `omit(o, ks)` from the `lomit` dependency: drop every pair whose key is
listed. -/
def omitKeys {β : Type} (o : List (String × β)) (ks : List String) : List (String × β) :=
  o.filter (fun p => !(ks.contains p.1))

/-- Replace the first occurrence of `pat` in a character list, the
semantics of `String.prototype.replace` with a string pattern. -/
def replaceFirstL (pat rep : List Char) : List Char → List Char
  | [] => []
  | c :: rest =>
      if pat.isPrefixOf (c :: rest) then rep ++ (c :: rest).drop pat.length
      else c :: replaceFirstL pat rep rest

/-- `String.prototype.replace` with a plain-string pattern: first
occurrence only. -/
def replaceFirst (s pat rep : String) : String :=
  String.mk (replaceFirstL pat.data rep.data s.data)

/-- Substring test on character lists, the semantics of
`String.prototype.includes`. -/
def containsL (pat : List Char) : List Char → Bool
  | [] => pat.isEmpty
  | c :: rest => pat.isPrefixOf (c :: rest) || containsL pat rest

/-- `String.prototype.includes`. -/
def containsSubstr (s pat : String) : Bool :=
  containsL pat.data s.data

/-- `String.prototype.endsWith`. -/
def strEndsWith (s suffixStr : String) : Bool :=
  suffixStr.data.isSuffixOf s.data

/-- `String.prototype.startsWith`. -/
def strStartsWith (s prefixStr : String) : Bool :=
  prefixStr.data.isPrefixOf s.data

/-- `getSearchKey` from `src/utils.js`: map a suffixed variable name to the
Contentful filter key.  The branches appear in source order; note that the
`_in` test precedes the `_not_in` test. -/
def getSearchKey (variableKey : String) : String :=
  if strEndsWith variableKey "_in" then
    "fields." ++ replaceFirst variableKey "_in" "" ++ "[in]"
  else if strEndsWith variableKey "_not" then
    "fields." ++ replaceFirst variableKey "_not" "" ++ "[ne]"
  else if strEndsWith variableKey "_exists" then
    "fields." ++ replaceFirst variableKey "_exists" "" ++ "[exists]"
  else if strEndsWith variableKey "_not_in" then
    "fields." ++ replaceFirst variableKey "_not_in" "" ++ "[nin]"
  else
    "fields." ++ variableKey

/-- String part of `getOrderValue` from `src/utils.js`, applied when the
input is a truthy string. -/
def getOrderValueStr (s : String) : String :=
  let s1 := String.mk (s.data.map (fun c => if c == '_' then '.' else c))
  let s2 := if strStartsWith s1 "sys." then s1 else "fields." ++ s1
  let s3 :=
    if strEndsWith s2 ".DESC" then "-" ++ replaceFirst s2 ".DESC" ""
    else if strEndsWith s2 ".ASC" then replaceFirst s2 ".ASC" ""
    else s2
  let s4 :=
    if containsSubstr s3 "sys.firstPublishedAt" then
      replaceFirst s3 "sys.firstPublishedAt" "sys.createdAt"
    else s3
  if containsSubstr s4 "sys.publishedAt" then
    replaceFirst s4 "sys.publishedAt" "sys.updatedAt"
  else s4

/-- `getOrderValue` from `src/utils.js`: falsy or non-string inputs are
returned unchanged. -/
def getOrderValue : Value → Value
  | Value.vStr s => if s == "" then Value.vStr s else Value.vStr (getOrderValueStr s)
  | v => v

/-- GraphQL AST value nodes, one constructor per `kind` the source
switches on (`ListValue`, `BooleanValue`, `EnumValue`, `FloatValue`,
`IntValue`, `StringValue`, `Variable`, `ObjectValue`, `NullValue`).
Float/int literals carry their string representation, as in graphql-js. -/
inductive AstValue where
  | listValue (values : List AstValue)
  | booleanValue (value : Bool)
  | enumValue (value : String)
  | floatValue (value : String)
  | intValue (value : String)
  | stringValue (value : String)
  | variableValue (name : String)
  | objectValue (fields : List (String × AstValue))
  | nullValue

/-- A GraphQL argument node: a name and an optional value node.  A missing
name is modelled by the empty string, matching the truthiness checks in the
source. -/
structure Argument where
  name : String
  value : Option AstValue

/-- A selection: a `Field` (optional name, argument list, optional nested
selection set) or a `FragmentSpread` (a name, no arguments property). -/
inductive Selection where
  | field (name : Option String) (arguments : List Argument)
      (selectionSet : Option (List Selection))
  | fragmentSpread (name : String)

/-- A definition: an `OperationDefinition` (operation kind, optional name,
declared variable names, selections) or a `FragmentDefinition`. -/
inductive Definition where
  | opDef (operation : String) (name : Option String)
      (variableDefinitions : List String) (selections : List Selection)
  | fragDef (name : String) (selections : List Selection)

/-- A GraphQL document: a list of definitions. -/
structure Document where
  definitions : List Definition

/-- An Apollo operation: query document, an optional map of documents keyed
by operation name (the `query[operationName]` probe in `getRootQuery`), the
operation name and the runtime variables map. -/
structure Operation where
  query : Document
  namedQueries : List (String × Document)
  operationName : String
  vars : Obj

/-- `definition.kind === 'OperationDefinition'`. -/
def isOperationDefinitionB : Definition → Bool
  | Definition.opDef _ _ _ _ => true
  | Definition.fragDef _ _ => false

/-- `definition.selectionSet.selections`. -/
def selectionsOf : Definition → List Selection
  | Definition.opDef _ _ _ sels => sels
  | Definition.fragDef _ sels => sels

/-- `definition.variableDefinitions`, each mapped to its variable name. -/
def varDefsOf : Definition → List String
  | Definition.opDef _ _ vds _ => vds
  | Definition.fragDef _ _ => []

/-- `selection.arguments`: present on `Field` nodes, absent (`undefined`)
on `FragmentSpread` nodes, where accessing `.forEach`/`.map` throws. -/
def argumentsOf : Selection → Option (List Argument)
  | Selection.field _ args _ => some args
  | Selection.fragmentSpread _ => none

/-- `value.name.value` of an AST value node: only `Variable` nodes carry a
name. -/
def astName : AstValue → Option String
  | AstValue.variableValue n => some n
  | _ => none

/-- `getRootQuery` from `src/utils.js`: prefer `query[operationName]` when
that key exists, else the query document itself. -/
def getRootQuery (op : Operation) : Document :=
  match jget op.namedQueries op.operationName with
  | some d => d
  | none => op.query

/-- A variable binding record `{kind, field}` stored in the variable map. -/
structure Binding where
  kind : String
  field : String
deriving DecidableEq

/-- Bindings contributed by one argument node in `buildVariableMap`: object
values bind each object field whose value is a variable reference; other
values bind the argument name when the value is a variable reference. -/
def bindingsOfArgument (a : Argument) : List (String × Binding) :=
  match a.value with
  | some (AstValue.objectValue fields) =>
      fields.filterMap (fun f =>
        match f.2 with
        | AstValue.variableValue vn =>
            if vn == "" || f.1 == "" then none
            else some (vn, { kind := "ObjectField", field := f.1 })
        | _ => none)
  | some v =>
      match astName v with
      | some vn =>
          if vn == "" || a.name == "" then []
          else [(vn, { kind := "Argument", field := a.name })]
      | none => []
  | none => []

/-- `buildVariableMap` from `src/utils.js`.  Iterates every selection of
every `OperationDefinition`; accessing `.arguments` on a `FragmentSpread`
selection throws, modelled by `none`. -/
def buildVariableMap (op : Operation) : Option (List (String × Binding)) :=
  match (((getRootQuery op).definitions.filter isOperationDefinitionB).map
      selectionsOf).flatten.mapM argumentsOf with
  | none => none
  | some argLists => some ((argLists.flatten.map bindingsOfArgument).flatten)

/-- `argumentValue?.value` for list elements in the inline-argument
evaluation: scalar nodes carry a value, every other node yields
`undefined`. -/
def astScalarValue : AstValue → Value
  | AstValue.booleanValue b => Value.vBool b
  | AstValue.enumValue s => Value.vStr s
  | AstValue.floatValue s => Value.vStr s
  | AstValue.intValue s => Value.vStr s
  | AstValue.stringValue s => Value.vStr s
  | _ => Value.vNull

/-- Evaluation of one inline argument in `parseQueryVariables`: list values
join their elements with commas (running each through `getOrderValue` when
the argument is named `order`); scalar kinds pass their literal through; a
variable reference resolves to the referenced variable's name; anything
else stays null.  Falsy results and nameless arguments are dropped. -/
def evalArgument (a : Argument) : Option (String × Value) :=
  if a.name == "" then none
  else
    let value :=
      match a.value with
      | some (AstValue.listValue values) =>
          Value.vStr (joinValues (values.map (fun av =>
            if a.name == "order" then getOrderValue (astScalarValue av)
            else astScalarValue av)))
      | some (AstValue.booleanValue b) => Value.vBool b
      | some (AstValue.enumValue s) => Value.vStr s
      | some (AstValue.floatValue s) => Value.vStr s
      | some (AstValue.intValue s) => Value.vStr s
      | some (AstValue.stringValue s) => Value.vStr s
      | some (AstValue.variableValue n) => Value.vStr n
      | _ => Value.vNull
    if truthy value then some (a.name, value) else none

/-- The `operationArguments` object of `parseQueryVariables`: evaluate each
argument of the first selection, drop the nulls, merge the singletons. -/
def operationArgumentsOf (args : List Argument) : Obj :=
  args.filterMap evalArgument

/-- The Contentful reserved search parameters from `src/utils.js`. -/
def contentfulReservedParameters : List String :=
  ["access_token", "id", "include", "locale", "content_type", "select",
   "query", "links_to_entry", "links_to_asset", "order", "limit", "skip",
   "mimetype_group", "preview"]

/-- Body of the per-variable `.map` callback in `parseQueryVariables`,
before the `catch`: `Except.error ()` marks a thrown exception (calling
`.map` on a non-array `order` value, or a missing binding). -/
def translateVariableCore (vars : Obj) (vm : List (String × Binding))
    (k : String) : Except Unit (Option Obj) :=
  match jget vm k with
  | none => Except.error ()
  | some b =>
      if b.kind == "Argument" then
        if b.field != "" && contentfulReservedParameters.contains b.field then
          if b.field == "preview" && !truthy ((jget vars k).getD Value.vNull) then
            Except.ok none
          else if b.field == "order" then
            match (jget vars k).getD Value.vNull with
            | Value.vArr xs =>
                Except.ok (some [("order",
                  Value.vStr (joinValues (xs.map getOrderValue)))])
            | _ => Except.error ()
          else
            Except.ok (some [(b.field, (jget vars k).getD Value.vNull)])
        else
          Except.ok none
      else if b.kind == "ObjectField" then
        Except.ok (some [(getSearchKey b.field, (jget vars k).getD Value.vNull)])
      else
        Except.ok none

/-- The per-variable `.map` callback including its `catch`: exceptions
yield `null`, i.e. the variable is skipped. -/
def translateVariable (vars : Obj) (vm : List (String × Binding))
    (k : String) : Option Obj :=
  match translateVariableCore vars vm k with
  | Except.error _ => none
  | Except.ok r => r

/-- The `operationQueries` object of `parseQueryVariables`: translate every
variable-map key present in the runtime variables, drop the nulls, merge
the singleton results. -/
def operationQueries (vars : Obj) (vm : List (String × Binding)) : Obj :=
  (((objKeys vm).filter (fun k => (jget vars k).isSome)).filterMap
    (translateVariable vars vm)).flatten

/-- First `OperationDefinition` of the root query. -/
def firstOpDef (op : Operation) : Option Definition :=
  (getRootQuery op).definitions.find? isOperationDefinitionB

/-- Layer 1 of the translator: inline literal arguments of the first
selection of the active operation definition. -/
def layerInlineArguments (op : Operation) : Option Obj :=
  match firstOpDef op with
  | none => none
  | some d =>
      match (selectionsOf d).head? with
      | none => none
      | some s =>
          match argumentsOf s with
          | none => none
          | some args => some (operationArgumentsOf args)

/-- Layer 2 of the translator: the bound-variable translation result. -/
def layerBoundVariables (op : Operation) : Option Obj :=
  match buildVariableMap op with
  | none => none
  | some vm => some (operationQueries op.vars vm)

/-- Layer 3 of the translator: runtime variables minus the declared
operation variables. -/
def layerPassthrough (op : Operation) : Option Obj :=
  match firstOpDef op with
  | none => none
  | some d => some (omitKeys op.vars (varDefsOf d))

/-- `parseQueryVariables` from `src/utils.js`.  `none` models a thrown
exception: `buildVariableMap` throwing on a spread selection, a missing
`OperationDefinition` (then `.variableDefinitions` of `undefined` throws),
a missing first selection, or a first selection without an `.arguments`
list. -/
def parseQueryVariables (op : Operation) : Option Obj :=
  match buildVariableMap op with
  | none => none
  | some vm =>
      match firstOpDef op with
      | none => none
      | some d =>
          match (selectionsOf d).head? with
          | none => none
          | some s =>
              match argumentsOf s with
              | none => none
              | some args =>
                  some (operationArgumentsOf args
                    ++ operationQueries op.vars vm
                    ++ omitKeys op.vars (varDefsOf d))

/-- Precondition under which `parseQueryVariables` reaches its result
expression: an `OperationDefinition` exists and its first selection exists
and carries an arguments list. -/
def translatorPreB (op : Operation) : Bool :=
  match firstOpDef op with
  | none => false
  | some d =>
      match (selectionsOf d).head? with
      | none => false
      | some s => (argumentsOf s).isSome

/-- The REST call chosen by `ContentfulRestLink.request`: method name, the
positional id argument of `getEntry`, and the parameter object. -/
structure QueryCall where
  method : String
  idArg : Option Value
  params : Obj

/-- Method selection and argument construction from
`ContentfulRestLink.request` (lines 59-71): `getEntry` when the translated
parameters contain `id`, else `getEntries` with a `content_type` obtained
by `rootKey.replace('Collection', '')`. -/
def buildQueryCall (queryDefaults : Obj) (rootKey : String)
    (queryVariables : Obj) : QueryCall :=
  if (jget queryVariables "id").isSome then
    { method := "getEntry"
      idArg := jget queryVariables "id"
      params := queryDefaults ++ omitKeys queryVariables ["id", "preview"] }
  else
    { method := "getEntries"
      idArg := none
      params := (queryDefaults ++ omitKeys queryVariables ["preview"])
        ++ [("content_type", Value.vStr (replaceFirst rootKey "Collection" ""))] }

/-- Modelled from the claim's words for comparison: the root key with a
trailing `Collection` suffix stripped. -/
def stripTrailingCollection (s : String) : String :=
  if strEndsWith s "Collection" then String.mk (s.data.take (s.data.length - 10))
  else s

/-- Client selection from `ContentfulRestLink.request` (lines 73-78):
`true` means the preview client is used.  The first argument states whether
a preview client was configured in the constructor. -/
def choosePreviewClient (hasPreviewClient : Bool) (queryVariables : Obj) : Bool :=
  hasPreviewClient &&
    (match jget queryVariables "preview" with
     | some v => truthy v
     | none => false)

/-- Events delivered to the downstream observer. -/
inductive Emission where
  | next (data : Value) (errors : Value)
  | complete
  | failure (msg : String)

/-- Observer events produced by the body of the `Observable` in
`ContentfulRestLink.request` (lines 83-109), given the outcome of the
Contentful fetch and of the `graphql(...)` evaluation: a fetch rejection is
forwarded via `observer.error`; on fetch success a successful evaluation
emits once and completes, while an evaluation rejection is only passed to
`console.error`, so the observer receives nothing. -/
def requestEmissions (upstreamErrors : Value)
    (fetchResult evalResult : Except String Value) : List Emission :=
  match fetchResult with
  | Except.error e => [Emission.failure e]
  | Except.ok _ =>
      match evalResult with
      | Except.ok d => [Emission.next d upstreamErrors, Emission.complete]
      | Except.error _ => []

/-- A shape descriptor: field (or `...Fragment`) names mapped to a nested
descriptor or `none` for scalar leaves. -/
inductive Shape where
  | mk (entries : List (String × Option Shape))

/-- The entry list of a shape descriptor. -/
def shapeEntries : Shape → List (String × Option Shape)
  | Shape.mk l => l

/-- The `definitions.find` predicate used for a fragment spread named `n`:
a `FragmentDefinition` with a truthy name equal to the spread's truthy
name. -/
def fragNamed (n : String) (d : Definition) : Bool :=
  match d with
  | Definition.fragDef fn _ => fn != "" && n != "" && fn == n
  | Definition.opDef _ _ _ _ => false

mutual

/-- `extractSelections` from `src/utils.js`.  The JavaScript recursion can
diverge on cyclic fragment spreads, so the embedding takes a fuel
parameter; `Except.error ()` marks exhausted fuel (divergence), never an
exception of the source, which throws nothing here. -/
def extractSelections : Nat → Option (List Selection) → List Definition →
    Except Unit (Option Shape)
  | 0, _, _ => Except.error ()
  | _ + 1, none, _ => Except.ok none
  | _ + 1, some [], _ => Except.ok none
  | fuel + 1, some (sel :: rest), defs =>
      match selectionsContribs fuel (sel :: rest) defs with
      | Except.error e => Except.error e
      | Except.ok entries => Except.ok (some (Shape.mk entries))
  termination_by fuel _ _ => (fuel, 0)

/-- The `forEach` over a selection list, accumulating assignments. -/
def selectionsContribs : Nat → List Selection → List Definition →
    Except Unit (List (String × Option Shape))
  | _, [], _ => Except.ok []
  | fuel, sel :: rest, defs =>
      match selectionContrib fuel sel defs with
      | Except.error e => Except.error e
      | Except.ok entry =>
          match selectionsContribs fuel rest defs with
          | Except.error e => Except.error e
          | Except.ok entries => Except.ok (entry ++ entries)
  termination_by fuel sels _ => (fuel, 2 + sels.length)

/-- Entries contributed by a single selection in `extractSelections`: a
named field records its recursively extracted subtree; a fragment spread
records `...<name>` when a matching `FragmentDefinition` exists and is
silently omitted otherwise. -/
def selectionContrib : Nat → Selection → List Definition →
    Except Unit (List (String × Option Shape))
  | fuel, Selection.field nameOpt _ ss, defs =>
      (match nameOpt with
       | some n =>
           if n == "" then Except.ok []
           else
             match extractSelections fuel ss defs with
             | Except.error e => Except.error e
             | Except.ok sub => Except.ok [(n, sub)]
       | none => Except.ok [])
  | fuel, Selection.fragmentSpread n, defs =>
      (match defs.find? (fragNamed n) with
       | some fd =>
           match extractSelections fuel (some (selectionsOf fd)) defs with
           | Except.error e => Except.error e
           | Except.ok sub => Except.ok [("..." ++ n, sub)]
       | none => Except.ok [])
  termination_by fuel _ _ => (fuel, 1)

end

/-- Modelled from the claim's words for comparison: the ordering algorithm
exactly as claim C6 states it, with the trailing `.DESC`/`.ASC` suffix
itself stripped. -/
def orderClaimSpec (s : String) : String :=
  let s1 := String.mk (s.data.map (fun c => if c == '_' then '.' else c))
  let s2 := if strStartsWith s1 "sys." then s1 else "fields." ++ s1
  let s3 :=
    if strEndsWith s2 ".DESC" then "-" ++ String.mk (s2.data.take (s2.data.length - 5))
    else if strEndsWith s2 ".ASC" then String.mk (s2.data.take (s2.data.length - 4))
    else s2
  let s4 :=
    if containsSubstr s3 "sys.firstPublishedAt" then
      replaceFirst s3 "sys.firstPublishedAt" "sys.createdAt"
    else s3
  if containsSubstr s4 "sys.publishedAt" then
    replaceFirst s4 "sys.publishedAt" "sys.updatedAt"
  else s4

/-- Modelled from the amended claim's words: as `orderClaimSpec` but the
direction suffix is removed at its first occurrence, which is what
`String.prototype.replace` does. -/
def orderAmendedSpec (s : String) : String :=
  let s1 := String.mk (s.data.map (fun c => if c == '_' then '.' else c))
  let s2 := if strStartsWith s1 "sys." then s1 else "fields." ++ s1
  let s3 :=
    if strEndsWith s2 ".DESC" then "-" ++ replaceFirst s2 ".DESC" ""
    else if strEndsWith s2 ".ASC" then replaceFirst s2 ".ASC" ""
    else s2
  let s4 :=
    if containsSubstr s3 "sys.firstPublishedAt" then
      replaceFirst s3 "sys.firstPublishedAt" "sys.createdAt"
    else s3
  if containsSubstr s4 "sys.publishedAt" then
    replaceFirst s4 "sys.publishedAt" "sys.updatedAt"
  else s4

/-- The layer-2 fold with one variable name removed from the iterated keys:
the comparison point for the error-isolation claim. -/
def operationQueriesExcluding (vars : Obj) (vm : List (String × Binding))
    (dropped : String) : Obj :=
  ((((objKeys vm).filter (fun k => (jget vars k).isSome)).filter
      (fun k => k != dropped)).filterMap (translateVariable vars vm)).flatten

/-- Fixture: a single-operation query `query Q($id) { post(id: $id) }` with
runtime variables `{id: "abc123", extra: "x"}`. -/
def opC4 : Operation :=
  { query := { definitions := [Definition.opDef "query" (some "Q") ["id"]
      [Selection.field (some "post")
        [{ name := "id", value := some (AstValue.variableValue "id") }] none]] }
    namedQueries := []
    operationName := "Q"
    vars := [("id", Value.vStr "abc123"), ("extra", Value.vStr "x")] }

/-- Fixture: an operation whose document has no definitions at all. -/
def opNoDefs : Operation :=
  { query := { definitions := [] }
    namedQueries := []
    operationName := "Q"
    vars := [] }

/-- Fixture: runtime variables binding `p` to `true`. -/
def varsC5 : Obj := [("p", Value.vBool true)]

/-- Fixture: variable map binding `p` to the reserved `preview` field. -/
def vmC5 : List (String × Binding) :=
  [("p", { kind := "Argument", field := "preview" })]

/-- Fixture: runtime variables where `v` holds a non-array string and `w`
holds a plain search value. -/
def varsC8 : Obj := [("v", Value.vStr "x"), ("w", Value.vStr "y")]

/-- Fixture: variable map binding `v` to `order` (whose translation throws
on a non-array) and `w` to a content-field filter. -/
def vmC8 : List (String × Binding) :=
  [("v", { kind := "Argument", field := "order" }),
   ("w", { kind := "ObjectField", field := "slug" })]

/-- Fixture: a definitions list containing one fragment `F`. -/
def defsC9 : List Definition :=
  [Definition.fragDef "F" [Selection.field (some "title") [] none]]

/-- Folding the last-write-wins step from an arbitrary accumulator factors
through `lastSome`. -/
theorem lastSome_foldl_init {α β : Type} (g : α → Option β) (l : List α) :
    ∀ init : Option β,
      l.foldl (fun acc x => match g x with | some v => some v | none => acc) init
        = orO (lastSome g l) init := by
  induction l with
  | nil => intro init; rfl
  | cons x t ih =>
      intro init
      rw [List.foldl_cons, ih]
      have hx : lastSome g (x :: t)
          = orO (lastSome g t) (match g x with | some v => some v | none => none) := by
        show t.foldl _ _ = _
        rw [ih]
      rw [hx]
      cases g x <;> cases lastSome g t <;> rfl

/-- Unfolding `lastSome` one element at a time. -/
theorem lastSome_cons {α β : Type} (g : α → Option β) (x : α) (t : List α) :
    lastSome g (x :: t) = orO (lastSome g t) (g x) := by
  have h : lastSome g (x :: t)
      = t.foldl (fun acc y => match g y with | some v => some v | none => acc)
          (match g x with | some v => some v | none => none) := rfl
  rw [h, lastSome_foldl_init]
  cases g x <;> rfl

/-- `lastSome` over an appended list prefers the second part. -/
theorem lastSome_append {α β : Type} (g : α → Option β) (l1 l2 : List α) :
    lastSome g (l1 ++ l2) = orO (lastSome g l2) (lastSome g l1) := by
  show (l1 ++ l2).foldl _ none = _
  rw [List.foldl_append]
  exact lastSome_foldl_init g l2 (l1.foldl _ none)

/-- `orO` is associative. -/
theorem orO_assoc {β : Type} (a b c : Option β) :
    orO (orO a b) c = orO a (orO b c) := by
  cases a <;> rfl

/-- Lookup in a merged object: the later object wins, the earlier one is
the fallback. -/
theorem jget_append {β : Type} (o1 o2 : List (String × β)) (k : String) :
    jget (o1 ++ o2) k = orO (jget o2 k) (jget o1 k) :=
  lastSome_append _ o1 o2

/-- Unfolding `jget` one pair at a time. -/
theorem jget_cons {β : Type} (p : String × β) (t : List (String × β)) (k : String) :
    jget (p :: t) k = orO (jget t k) (if p.1 == k then some p.2 else none) :=
  lastSome_cons _ p t

/-- Lookup in the merge of a list of objects is the last object's hit. -/
theorem jget_flatten {β : Type} (L : List (List (String × β))) (k : String) :
    jget L.flatten k = lastSome (fun o => jget o k) L := by
  induction L with
  | nil => rfl
  | cons o t ih =>
      rw [List.flatten_cons, jget_append, ih, lastSome_cons]

/-- `lastSome` after `filterMap` composes the two partial maps. -/
theorem lastSome_filterMap {α γ β : Type} (f : α → Option γ) (g : γ → Option β)
    (l : List α) :
    lastSome g (l.filterMap f) = lastSome (fun x => (f x).bind g) l := by
  induction l with
  | nil => rfl
  | cons x t ih =>
      cases hfx : f x with
      | none =>
          rw [List.filterMap_cons_none hfx, ih, lastSome_cons]
          simp only [hfx, Option.none_bind]
          cases lastSome (fun x => (f x).bind g) t <;> rfl
      | some c =>
          rw [List.filterMap_cons_some hfx, lastSome_cons, ih, lastSome_cons]
          simp only [hfx, Option.some_bind]

/-- If only the key `k` can produce a value, `lastSome` reduces to its
value at `k`, or nothing when `k` is absent. -/
theorem lastSome_eq_single {β : Type} (g : String → Option β) (k : String)
    (l : List String) (h : ∀ x ∈ l, x ≠ k → g x = none) :
    lastSome g l = if k ∈ l then g k else none := by
  induction l with
  | nil => rfl
  | cons x t ih =>
      rw [lastSome_cons, ih (fun y hy => h y (List.mem_cons_of_mem x hy))]
      by_cases hxk : x = k
      · subst hxk
        rw [if_pos (List.mem_cons_self x t)]
        by_cases hkt : x ∈ t
        · rw [if_pos hkt]; cases g x <;> rfl
        · rw [if_neg hkt]; rfl
      · rw [h x (List.mem_cons_self x t) hxk]
        by_cases hkt : k ∈ t
        · rw [if_pos hkt, if_pos (List.mem_cons_of_mem x hkt)]
          cases g k <;> rfl
        · have hnc : ¬ k ∈ x :: t := by
            intro hc
            rcases List.mem_cons.mp hc with hc | hc
            · exact hxk hc.symm
            · exact hkt hc
          rw [if_neg hkt, if_neg hnc]
          rfl

/-- A successful lookup means the key occurs in the pair list. -/
theorem jget_some_mem {β : Type} (o : List (String × β)) (k : String) (b : β)
    (h : jget o k = some b) : k ∈ o.map Prod.fst := by
  induction o with
  | nil => exact Option.noConfusion h
  | cons p t ih =>
      rw [jget_cons] at h
      cases hgt : jget t k with
      | some c =>
          rw [hgt] at h
          have hcb : c = b := by simpa [orO] using h
          exact List.mem_cons_of_mem _ (ih (hcb ▸ hgt))
      | none =>
          rw [hgt] at h
          by_cases hpk : (p.1 == k) = true
          · have hp : p.1 = k := beq_iff_eq.mp hpk
            rw [← hp]
            exact List.mem_cons_self _ _
          · rw [if_neg hpk] at h
            exact Option.noConfusion h

/-- `objKeys` contains every key occurring in the pair list. -/
theorem mem_objKeysAux {β : Type} (o : List (String × β)) (k : String) :
    ∀ seen : List String, k ∈ o.map Prod.fst → ¬ k ∈ seen → k ∈ objKeysAux seen o := by
  induction o with
  | nil => intro seen hmem _; exact absurd hmem (by simp)
  | cons p t ih =>
      intro seen hmem hseen
      by_cases hps : p.1 ∈ seen
      · have hk : k ∈ t.map Prod.fst := by
          rcases List.mem_cons.mp hmem with hc | hc
          · exact absurd (hc ▸ hps) hseen
          · exact hc
        rw [objKeysAux, if_pos hps]
        exact ih seen hk hseen
      · rw [objKeysAux, if_neg hps]
        by_cases hkp : k = p.1
        · exact hkp ▸ List.mem_cons_self _ _
        · have hk : k ∈ t.map Prod.fst := by
            rcases List.mem_cons.mp hmem with hc | hc
            · exact absurd hc hkp
            · exact hc
          refine List.mem_cons_of_mem _ (ih (p.1 :: seen) hk ?_)
          intro hc
          rcases List.mem_cons.mp hc with hc | hc
          · exact hkp hc
          · exact hseen hc

/-- `objKeys` contains every key that looks up successfully. -/
theorem mem_objKeys_of_jget {β : Type} (o : List (String × β)) (k : String)
    (b : β) (h : jget o k = some b) : k ∈ objKeys o :=
  mem_objKeysAux o k [] (jget_some_mem o k b h) (by simp)

/-- C1: the `_in` suffix check precedes the `_not_in` check in
`getSearchKey`, so `title_not_in` is mapped to `fields.title_not[in]`
instead of the claimed `fields.title[nin]`; the `[nin]` branch of the
source is unreachable for every key ending in `_not_in`. -/
theorem getSearchKey_not_in_shadowed :
    getSearchKey "title_not_in" = "fields.title_not[in]" ∧
    getSearchKey "title_not_in" ≠ "fields.title[nin]" := by
  constructor
  · decide
  · decide

/-- C2: observer events per collaborator outcome.  A fetch rejection
produces a single failure and a successful fetch plus successful
evaluation produce a single emission followed by completion, but an
evaluation rejection after a successful fetch produces no event at all
(the error is only logged), contradicting the claim that every request
yields exactly one terminal outcome. -/
theorem requestEmissions_outcomes :
    requestEmissions Value.vNull (Except.error "fetch failed") (Except.ok Value.vNull)
      = [Emission.failure "fetch failed"] ∧
    requestEmissions Value.vNull (Except.ok Value.vNull) (Except.ok (Value.vStr "d"))
      = [Emission.next (Value.vStr "d") Value.vNull, Emission.complete] ∧
    requestEmissions Value.vNull (Except.ok Value.vNull) (Except.error "evaluation failed")
      = [] := by
  exact ⟨rfl, rfl, rfl⟩

/-- C3 counterexample: for root key `CollectionPost` the code removes the
first occurrence of `Collection`, producing content type `Post`, while the
claimed trailing-suffix strip would leave `CollectionPost` unchanged. -/
theorem buildQueryCall_collection_cex :
    jget (buildQueryCall [] "CollectionPost" []).params "content_type"
      = some (Value.vStr "Post") ∧
    stripTrailingCollection "CollectionPost" = "CollectionPost" ∧
    ("Post" : String) ≠ "CollectionPost" := by
  refine ⟨rfl, by decide, by decide⟩

/-- C3 amended: `getEntry` is selected exactly when the translated
parameters contain an `id` key, with arguments
`(id, merge(queryDefaults, params minus id and preview))`; otherwise
`getEntries` is selected with the merged parameters plus a `content_type`
equal to the root key with its first occurrence of `Collection` removed
(the trailing suffix whenever `Collection` occurs only at the end). -/
theorem buildQueryCall_amended (qd : Obj) (rk : String) (qv : Obj) :
    ((buildQueryCall qd rk qv).method = "getEntry" ↔ (jget qv "id").isSome = true) ∧
    ((jget qv "id").isSome = true →
      buildQueryCall qd rk qv =
        { method := "getEntry", idArg := jget qv "id",
          params := qd ++ omitKeys qv ["id", "preview"] }) ∧
    ((jget qv "id").isSome = false →
      buildQueryCall qd rk qv =
        { method := "getEntries", idArg := none,
          params := (qd ++ omitKeys qv ["preview"])
            ++ [("content_type", Value.vStr (replaceFirst rk "Collection" ""))] }) := by
  unfold buildQueryCall
  by_cases h : (jget qv "id").isSome = true
  · rw [if_pos h]
    refine ⟨⟨fun _ => h, fun _ => rfl⟩, fun _ => rfl, fun hc => ?_⟩
    rw [h] at hc
    exact Bool.noConfusion hc
  · rw [if_neg h]
    refine ⟨⟨fun hm => absurd (show ("getEntries" : String) = "getEntry" from hm)
      (by decide), fun hc => absurd hc h⟩, fun hc => absurd hc h, fun _ => rfl⟩

/-- C3 amended, witness: a parameter set containing `id` selects
`getEntry` with the id as first argument. -/
theorem buildQueryCall_amended_witness :
    buildQueryCall [] "postCollection" [("id", Value.vStr "abc123")] =
      { method := "getEntry", idArg := some (Value.vStr "abc123"),
        params := [] ++ omitKeys [("id", Value.vStr "abc123")] ["id", "preview"] } := by
  have h := (buildQueryCall_amended [] "postCollection"
    [("id", Value.vStr "abc123")]).2.1 (by rfl)
  exact h

/-- C6 counterexample: on `created_DESC_title_DESC` the code removes the
first `.DESC` occurrence, while the claim strips the trailing one; the two
results differ. -/
theorem getOrderValue_trailing_cex :
    getOrderValue (Value.vStr "created_DESC_title_DESC")
      = Value.vStr "-fields.created.title.DESC" ∧
    orderClaimSpec "created_DESC_title_DESC" = "-fields.created.DESC.title" ∧
    ("-fields.created.title.DESC" : String) ≠ "-fields.created.DESC.title" := by
  refine ⟨rfl, by decide, by decide⟩

/-- C6 amended: for every non-empty order expression string the normalizer
replaces every `_` with `.`, prepends `fields.` unless the result starts
with `sys.`, removes the first occurrence of `.DESC` and prepends `-` when
the string ends in `.DESC` (else removes the first `.ASC` when it ends in
`.ASC`), and finally remaps `sys.firstPublishedAt` to `sys.createdAt` and
`sys.publishedAt` to `sys.updatedAt`; empty and non-string inputs are
returned unchanged. -/
theorem getOrderValue_amended (s : String) (h : s ≠ "") :
    getOrderValue (Value.vStr s) = Value.vStr (orderAmendedSpec s) := by
  have hb : (s == "") = false := beq_eq_false_iff_ne.mpr h
  show (if s == "" then Value.vStr s else Value.vStr (getOrderValueStr s)) = _
  rw [hb]
  rfl

/-- C6 amended, witness: the published-at legacy field with descending
direction. -/
theorem getOrderValue_amended_witness :
    getOrderValue (Value.vStr "sys.publishedAt_DESC") = Value.vStr "-sys.updatedAt" := by
  rw [getOrderValue_amended "sys.publishedAt_DESC" (by decide)]
  rfl

/-- C7: the preview client is used exactly when a preview client is
configured and the translated parameter set holds a truthy `preview`
entry. -/
theorem choosePreviewClient_iff (hasPC : Bool) (qv : Obj) :
    choosePreviewClient hasPC qv = true ↔
      hasPC = true ∧ ∃ v, jget qv "preview" = some v ∧ truthy v = true := by
  unfold choosePreviewClient
  cases hv : jget qv "preview" with
  | none => simp
  | some v => simp

/-- C10: whenever the root query has no `OperationDefinition`, or the
first `OperationDefinition` has no first selection carrying an arguments
list, `parseQueryVariables` throws before producing a parameter set. -/
theorem parseQueryVariables_requires (op : Operation)
    (h : translatorPreB op = false) : parseQueryVariables op = none := by
  cases hvm : buildVariableMap op with
  | none => simp only [parseQueryVariables, hvm]
  | some vm =>
      unfold translatorPreB at h
      cases hfd : firstOpDef op with
      | none => simp only [parseQueryVariables, hvm, hfd]
      | some d =>
          simp only [hfd] at h
          cases hhd : (selectionsOf d).head? with
          | none => simp only [parseQueryVariables, hvm, hfd, hhd]
          | some s =>
              simp only [hhd] at h
              cases hargs : argumentsOf s with
              | none => simp only [parseQueryVariables, hvm, hfd, hhd, hargs]
              | some args =>
                  simp only [hargs, Option.isSome_some] at h
                  exact Bool.noConfusion h

/-- C10 witness: an operation without any definition throws. -/
theorem parseQueryVariables_requires_witness :
    parseQueryVariables opNoDefs = none :=
  parseQueryVariables_requires opNoDefs (by rfl)

/-- C4: `parseQueryVariables` is exactly the shallow merge of the inline
literal arguments, then the bound-variable translation, then the runtime
variables minus the declared operation variables, with later layers
winning on key collision. -/
theorem parseQueryVariables_layers (op : Operation) (a q pv : Obj)
    (h1 : layerInlineArguments op = some a)
    (h2 : layerBoundVariables op = some q)
    (h3 : layerPassthrough op = some pv) :
    parseQueryVariables op = some (a ++ q ++ pv) ∧
    ∀ k, jget (a ++ q ++ pv) k = orO (jget pv k) (orO (jget q k) (jget a k)) := by
  constructor
  · cases hvm : buildVariableMap op with
    | none =>
        simp only [layerBoundVariables, hvm] at h2
        exact Option.noConfusion h2
    | some vm =>
        simp only [layerBoundVariables, hvm] at h2
        cases hfd : firstOpDef op with
        | none =>
            simp only [layerInlineArguments, hfd] at h1
            exact Option.noConfusion h1
        | some d =>
            simp only [layerInlineArguments, hfd] at h1
            simp only [layerPassthrough, hfd] at h3
            cases hhd : (selectionsOf d).head? with
            | none =>
                simp only [hhd] at h1
                exact Option.noConfusion h1
            | some s =>
                simp only [hhd] at h1
                cases hargs : argumentsOf s with
                | none =>
                    simp only [hargs] at h1
                    exact Option.noConfusion h1
                | some args =>
                    simp only [hargs] at h1
                    simp only [parseQueryVariables, hvm, hfd, hhd, hargs]
                    rw [Option.some.inj h1, Option.some.inj h2, Option.some.inj h3]
  · intro k
    rw [jget_append, jget_append]

/-- C4 witness: on the fixture operation the three layers merge with the
bound-variable layer overriding the inline `id` literal and the
undeclared `extra` variable passing through. -/
theorem parseQueryVariables_layers_witness :
    parseQueryVariables opC4
      = some ([("id", Value.vStr "id")] ++ [("id", Value.vStr "abc123")]
          ++ [("extra", Value.vStr "x")]) ∧
    jget ([("id", Value.vStr "id")] ++ [("id", Value.vStr "abc123")]
        ++ [("extra", Value.vStr "x")]) "id" = some (Value.vStr "abc123") := by
  have h := parseQueryVariables_layers opC4 [("id", Value.vStr "id")]
    [("id", Value.vStr "abc123")] [("extra", Value.vStr "x")] rfl rfl rfl
  exact ⟨h.1, rfl⟩

/-- Removing a key whose image under the partial map is empty does not
change a `filterMap`. -/
theorem filterMap_filter_ne {γ : Type} (F : String → Option γ) (k : String)
    (hF : F k = none) (L : List String) :
    L.filterMap F = (L.filter (fun x => x != k)).filterMap F := by
  induction L with
  | nil => rfl
  | cons x t ih =>
      by_cases hx : x = k
      · subst hx
        rw [List.filterMap_cons, hF, List.filter_cons]
        have hb : (x != x) = false := by simp
        rw [hb]
        simpa using ih
      · have hb : (x != k) = true := bne_iff_ne.mpr hx
        rw [List.filter_cons, hb, if_pos rfl, List.filterMap_cons,
          List.filterMap_cons, ih]

/-- C8: when the translation of one variable throws, the exception is
caught: that variable contributes nothing and the bound-variable layer
equals the same fold with that variable removed from the iterated keys. -/
theorem translateVariable_error_isolated (vars : Obj)
    (vm : List (String × Binding)) (k : String)
    (h : translateVariableCore vars vm k = Except.error ()) :
    translateVariable vars vm k = none ∧
    operationQueries vars vm = operationQueriesExcluding vars vm k := by
  have ht : translateVariable vars vm k = none := by
    unfold translateVariable
    rw [h]
  refine ⟨ht, ?_⟩
  unfold operationQueries operationQueriesExcluding
  rw [filterMap_filter_ne (translateVariable vars vm) k ht]

/-- C8 witness: an `order`-bound variable holding a non-array string
throws inside its translation; it is skipped while the `slug` filter
variable still contributes. -/
theorem translateVariable_error_isolated_witness :
    translateVariable varsC8 vmC8 "v" = none ∧
    operationQueries varsC8 vmC8 = operationQueriesExcluding varsC8 vmC8 "v" ∧
    operationQueries varsC8 vmC8 = [("fields.slug", Value.vStr "y")] := by
  have h := translateVariable_error_isolated varsC8 vmC8 "v" rfl
  exact ⟨h.1, h.2, rfl⟩

/-- Lookup in a one-pair object. -/
theorem jget_singleton {β : Type} (x : String) (w : β) (p : String) :
    jget [(x, w)] p = if x == p then some w else none := by
  by_cases h : x = p
  · subst h
    simp [jget, lastSome]
  · simp [jget, lastSome, h]

/-- Every result of `getSearchKey` starts with the character `f`. -/
theorem getSearchKey_head (f : String) :
    (getSearchKey f).data.head? = some 'f' := by
  unfold getSearchKey
  split
  · simp only [String.data_append, List.cons_append]
    rfl
  · split
    · simp only [String.data_append, List.cons_append]
      rfl
    · split
      · simp only [String.data_append, List.cons_append]
        rfl
      · split
        · simp only [String.data_append, List.cons_append]
          rfl
        · simp only [String.data_append, List.cons_append]
          rfl

/-- `getSearchKey` never produces the reserved key `preview`. -/
theorem getSearchKey_beq_preview (f : String) :
    (getSearchKey f == "preview") = false := by
  cases hbe : getSearchKey f == "preview" with
  | false => rfl
  | true =>
      exfalso
      have he : getSearchKey f = "preview" := beq_iff_eq.mp hbe
      have hh := getSearchKey_head f
      rw [he] at hh
      have hp : "preview".data.head? = some 'p' := by decide
      rw [hp] at hh
      injection hh with hc
      exact absurd hc (by decide)

/-- A variable whose binding is not an `Argument` targeting `preview`
contributes no `preview` key to the bound-variable layer. -/
theorem translate_no_preview (vars : Obj) (vm : List (String × Binding))
    (k' : String)
    (hne : jget vm k' ≠ some { kind := "Argument", field := "preview" }) :
    (translateVariable vars vm k').bind (fun o => jget o "preview") = none := by
  cases hbv : jget vm k' with
  | none =>
      simp only [translateVariable, translateVariableCore, hbv]
      rfl
  | some b =>
      cases b with
      | mk bk bf =>
          simp only [translateVariable, translateVariableCore, hbv]
          by_cases hk : bk = "Argument"
          · subst hk
            have hkb : (("Argument" : String) == "Argument") = true := by decide
            rw [if_pos hkb]
            by_cases hres : (bf != "" && contentfulReservedParameters.contains bf) = true
            · rw [if_pos hres]
              have hfne : bf ≠ "preview" := by
                intro hc
                subst hc
                exact hne hbv
              have hfprev : (bf == "preview") = false := beq_eq_false_iff_ne.mpr hfne
              have hcond : (bf == "preview"
                  && !truthy ((jget vars k').getD Value.vNull)) = false := by
                rw [hfprev]
                rfl
              rw [hcond]
              simp only [Bool.false_eq_true, if_false]
              by_cases hord : (bf == "order") = true
              · rw [if_pos hord]
                cases hw : (jget vars k').getD Value.vNull with
                | vArr xs => rfl
                | vNull => rfl
                | vBool c => rfl
                | vNum n => rfl
                | vStr t => rfl
              · rw [if_neg hord]
                show jget [(bf, (jget vars k').getD Value.vNull)] "preview" = none
                rw [jget_singleton, hfprev]
                rfl
            · rw [if_neg hres]
              rfl
          · have hkb : (bk == "Argument") = false := beq_eq_false_iff_ne.mpr hk
            rw [hkb]
            simp only [Bool.false_eq_true, if_false]
            by_cases hko : bk = "ObjectField"
            · subst hko
              have hkb2 : (("ObjectField" : String) == "ObjectField") = true := by decide
              rw [if_pos hkb2]
              show jget [(getSearchKey bf, (jget vars k').getD Value.vNull)] "preview" = none
              rw [jget_singleton, getSearchKey_beq_preview]
              rfl
            · have hkb2 : (bk == "ObjectField") = false := beq_eq_false_iff_ne.mpr hko
              rw [hkb2]
              simp only [Bool.false_eq_true, if_false]
              rfl

/-- C5: for an operation whose (unique) `preview`-bound variable has a
falsy runtime value the bound-variable layer contains no `preview` key,
and for a truthy runtime value it contains `preview` with exactly that
value. -/
theorem operationQueries_preview (vars : Obj) (vm : List (String × Binding))
    (k : String) (v : Value)
    (hb : jget vm k = some { kind := "Argument", field := "preview" })
    (hv : jget vars k = some v)
    (huniq : ∀ k', jget vm k' = some { kind := "Argument", field := "preview" } → k' = k) :
    (truthy v = false → jget (operationQueries vars vm) "preview" = none) ∧
    (truthy v = true → jget (operationQueries vars vm) "preview" = some v) := by
  have hcore : translateVariableCore vars vm k
      = Except.ok (if truthy v then some [("preview", v)] else none) := by
    simp only [translateVariableCore, hb]
    rw [hv]
    simp only [Option.getD_some]
    have h1 : (("Argument" : String) == "Argument") = true := by decide
    have h2 : (("preview" : String) != ""
        && contentfulReservedParameters.contains "preview") = true := by decide
    rw [if_pos h1, if_pos h2]
    cases ht : truthy v with
    | false =>
        have hc1 : (("preview" : String) == "preview" && !false) = true := by decide
        rw [hc1, if_pos rfl, if_neg Bool.false_ne_true]
    | true =>
        have hc1 : (("preview" : String) == "preview" && !true) = false := by decide
        have hc2 : (("preview" : String) == "order") = false := by decide
        rw [hc1, hc2, if_neg Bool.false_ne_true, if_neg Bool.false_ne_true, if_pos rfl]
  have htv : translateVariable vars vm k
      = (if truthy v then some [("preview", v)] else none) := by
    unfold translateVariable
    rw [hcore]
  have hG : jget (operationQueries vars vm) "preview"
      = lastSome (fun k' => (translateVariable vars vm k').bind (fun o => jget o "preview"))
          ((objKeys vm).filter (fun k' => (jget vars k').isSome)) := by
    unfold operationQueries
    rw [jget_flatten, lastSome_filterMap]
  have hsingle : lastSome
        (fun k' => (translateVariable vars vm k').bind (fun o => jget o "preview"))
        ((objKeys vm).filter (fun k' => (jget vars k').isSome))
      = if k ∈ (objKeys vm).filter (fun k' => (jget vars k').isSome)
        then (translateVariable vars vm k).bind (fun o => jget o "preview")
        else none :=
    lastSome_eq_single _ k _
      (fun k' _ hne' => translate_no_preview vars vm k' (fun hc => hne' (huniq k' hc)))
  have hkmem : k ∈ (objKeys vm).filter (fun k' => (jget vars k').isSome) := by
    apply List.mem_filter.mpr
    constructor
    · exact mem_objKeys_of_jget vm k _ hb
    · rw [hv]
      rfl
  constructor
  · intro ht
    rw [hG, hsingle, if_pos hkmem, htv, ht, if_neg Bool.false_ne_true]
    rfl
  · intro ht
    rw [hG, hsingle, if_pos hkmem, htv, ht, if_pos rfl]
    show jget [("preview", v)] "preview" = some v
    rw [jget_singleton, if_pos (by decide : (("preview" : String) == "preview") = true)]

/-- C5 witness: a single variable bound to `preview` with runtime value
`true` emits the `preview` key with that value. -/
theorem operationQueries_preview_witness :
    jget (operationQueries varsC5 vmC5) "preview" = some (Value.vBool true) := by
  have huniq : ∀ k', jget vmC5 k'
      = some { kind := "Argument", field := "preview" } → k' = "p" := by
    intro k' h
    by_cases hc : "p" = k'
    · exact hc.symm
    · have hn : jget vmC5 k' = none := by
        simp [vmC5, jget, lastSome, hc]
      rw [hn] at h
      exact Option.noConfusion h
  exact (operationQueries_preview varsC5 vmC5 "p" (Value.vBool true)
    rfl rfl huniq).2 rfl

/-- C9: a fragment spread whose name matches a `FragmentDefinition`
records the fragment's extracted shape under `...<name>`, and a spread
matching no definition contributes no entry and raises no error. -/
theorem selectionContrib_fragmentSpread (fuel : Nat) (defs : List Definition)
    (n : String) :
    (defs.find? (fragNamed n) = none →
      selectionContrib fuel (Selection.fragmentSpread n) defs = Except.ok []) ∧
    (∀ fd sub, defs.find? (fragNamed n) = some fd →
      extractSelections fuel (some (selectionsOf fd)) defs = Except.ok sub →
      selectionContrib fuel (Selection.fragmentSpread n) defs
        = Except.ok [("..." ++ n, sub)]) := by
  constructor
  · intro h
    simp only [selectionContrib, h]
  · intro fd sub h1 h2
    simp only [selectionContrib, h1, h2]

/-- C9 witness: with a single fragment `F` in scope, spreading `F`
records `...F` with the fragment's shape, and spreading the undefined `G`
yields no entry and no error. -/
theorem selectionContrib_fragmentSpread_witness :
    selectionContrib 2 (Selection.fragmentSpread "F") defsC9
      = Except.ok [("...F", some (Shape.mk [("title", none)]))] ∧
    selectionContrib 2 (Selection.fragmentSpread "G") defsC9 = Except.ok [] := by
  constructor
  · exact (selectionContrib_fragmentSpread 2 defsC9 "F").2
      (Definition.fragDef "F" [Selection.field (some "title") [] none])
      (some (Shape.mk [("title", none)]))
      (by rfl)
      (by simp [extractSelections, selectionsContribs, selectionContrib,
        defsC9, selectionsOf])
  · exact (selectionContrib_fragmentSpread 2 defsC9 "G").1 (by rfl)
